import Mathlib

/-!
Verification of the audiblez settings and job-orchestration core.

Shallow embedding of `src/audiblez/settings.py` (class `Settings`) and the
job / preview coordination logic of `src/audiblez/ui.py` (class `MainWindow`),
together with proofs of the testable properties stated by the specification.

Conventions used throughout:
* Python `dict` objects are modelled as insertion-ordered association lists
  `List (String × Val)`; assignment `d[k] = v` updates the first binding of
  `k` in place, or appends a fresh binding, exactly as CPython does.
* YAML scalar values are modelled by the inductive type `Val`; numeric leaves
  use `Rat` (the settings code never does float arithmetic, it only stores and
  retrieves, so exact rationals are a faithful carrier).
* The device capabilities of the machine (`torch.cuda.is_available()`,
  `torch.backends.mps.is_available()`) are a parameter `Caps`; CPU is always
  available, mirroring the literal cpu-true entry in `get_available_engines`.
-/

namespace Audiblez

/-- Device capability set of the running machine: `cpu` is always available,
`cuda` and `apple` (MPS) are probed at runtime. -/
structure Caps where
  cuda : Bool
  apple : Bool
deriving Repr, DecidableEq

/-- Embeds `Settings.get_available_engines`: availability status for all engines,
as the ordered dict with entries cpu (always true), cuda and apple. -/
def get_available_engines (c : Caps) : List (String × Bool) :=
  [("cpu", true), ("cuda", c.cuda), ("apple", c.apple)]

/-- Lookup in a `String × Bool` association list (first binding wins,
like a Python dict). -/
def boolLookup : List (String × Bool) → String → Option Bool
  | [], _ => none
  | (k, b) :: rest, e => if k = e then some b else boolLookup rest e

/-- The Python test `engine in available_engines and available_engines[engine]`:
true when the key is present and maps to `True`. -/
def engineAvailable (c : Caps) (engine : String) : Bool :=
  match boolLookup (get_available_engines c) engine with
  | some b => b
  | none => false

/-- Embeds `Settings.get_best_available_engine`: MPS first, then CUDA, then CPU. -/
def get_best_available_engine (c : Caps) : String :=
  if c.apple then "apple"
  else if c.cuda then "cuda"
  else "cpu"

/-- Embeds `Settings._get_default_engine` just delegates to
`get_best_available_engine`. -/
def get_default_engine (c : Caps) : String :=
  get_best_available_engine c

/-- Embeds `Settings._validate_engine`: keep the requested engine when it is
available, otherwise fall back to the best available engine. -/
def validate_engine (c : Caps) (engine : String) : String :=
  if engineAvailable c engine then engine
  else get_best_available_engine c

/-- A YAML / Python value as stored in the settings dict: a string, a number
(int or float, carried exactly as a rational), `None`, or a nested dict. -/
inductive Val where
  | vStr : String → Val
  | vNum : Rat → Val
  | vNone : Val
  | vDict : List (String × Val) → Val
deriving Repr

/-- Python dict read `d.get(k)` / `d[k]`: first binding of the key. -/
def dictGet : List (String × Val) → String → Option Val
  | [], _ => none
  | (k, v) :: rest, e => if k = e then some v else dictGet rest e

/-- Python dict write `d[k] = v`: overwrite the existing binding in place,
or append a fresh one at the end (CPython insertion order). -/
def dictSet : List (String × Val) → String → Val → List (String × Val)
  | [], e, v => [(e, v)]
  | (k, w) :: rest, e, v =>
      if k = e then (k, v) :: rest else (k, w) :: dictSet rest e v

mutual

/-- Embeds `Settings._deep_update(base_dict, update_dict)`: for each key/value of the
update dict in order, if the value is a dict and the key maps to a dict in the
base, merge those two dicts recursively; otherwise the update value overwrites
(or creates) the base binding (`mergeVal`). Returns the updated base. -/
def deep_update (base : List (String × Val)) : List (String × Val) → List (String × Val)
  | [] => base
  | (k, v) :: rest => deep_update (dictSet base k (mergeVal (dictGet base k) v)) rest
termination_by l => sizeOf l
decreasing_by all_goals simp_wf <;> omega

/-- The value `_deep_update` stores at one key: recursive merge when both the
update value and the existing base value are dicts, plain overwrite
otherwise. -/
def mergeVal : Option Val → Val → Val
  | some (Val.vDict bd), Val.vDict vd => Val.vDict (deep_update bd vd)
  | _, v => v
termination_by _ v => sizeOf v
decreasing_by all_goals simp_wf

end

/-- The nested `window` dict of the defaults. -/
def default_window : List (String × Val) :=
  [("width", Val.vNum 800), ("height", Val.vNum 600)]

/-- Embeds `Settings.__init__` defaults dict. `cwd` stands for
`os.path.abspath` of the current directory, an environment-supplied absolute path. -/
def defaults (c : Caps) (cwd : String) : List (String × Val) :=
  [("window", Val.vDict default_window),
   ("engine", Val.vStr (get_default_engine c)),
   ("voice", Val.vNone),
   ("speed", Val.vNum 1),
   ("output_folder", Val.vStr cwd)]

/-- Outcome of opening and YAML-parsing the settings file, the only effectful
step of `Settings._load_settings`:
* `absent`: `self.settings_file.exists()` is false;
* `failure`: the read or parse raised (caught by the `except` clause);
* `parsed none`: `yaml.safe_load` returned a falsy value (empty file or YAML
  null), which `or {}` turns into the empty dict;
* `parsed (some d)`: the file parsed to the top-level mapping `d`. -/
inductive FileState where
  | absent
  | failure
  | parsed : Option (List (String × Val)) → FileState
deriving Repr

/-- The engine-fixup step of `_load_settings`:
the assignment of `_validate_engine` of the merged engine entry back into the
dict. A hashable non-string engine value (number, null) is never a key of the
capability dict, so the membership test is false and `_validate_engine` falls
back to the best available engine; a dict-valued engine is unhashable, so the
membership test raises TypeError (modelled as `none`), which the `except`
clause of `_load_settings` catches. -/
def validateVal (c : Caps) : Val → Option Val
  | Val.vStr s => some (Val.vStr (validate_engine c s))
  | Val.vNum _ => some (Val.vStr (get_best_available_engine c))
  | Val.vNone => some (Val.vStr (get_best_available_engine c))
  | Val.vDict _ => none

/-- The dict returned by the `except` clause of `_load_settings` after the
merge has already run: `self.defaults.copy()` is a shallow copy, and the deep
merge updates the shared nested `window` dict of `self.defaults` in place, so
a dict-valued `window` entry of the file survives into the fallback dict; all
top-level leaves are the pristine defaults (only the discarded copy was
reassigned at top level). -/
def defaults_after_abort (c : Caps) (cwd : String)
    (loaded : List (String × Val)) : List (String × Val) :=
  match dictGet loaded "window" with
  | some (Val.vDict w) =>
      dictSet (defaults c cwd) "window" (Val.vDict (deep_update default_window w))
  | _ => defaults c cwd

/-- Embeds `Settings._load_settings`: defaults when the file is missing or
unreadable; otherwise deep-merge the loaded dict over a shallow copy of the
defaults and validate the `engine` entry. If the engine membership test raises
(dict-valued engine), the `except` clause returns a fresh shallow copy of the
defaults, whose shared `window` dict the merge may already have updated. -/
def load_settings (c : Caps) (cwd : String) (fs : FileState) : List (String × Val) :=
  match fs with
  | FileState.absent => defaults c cwd
  | FileState.failure => defaults c cwd
  | FileState.parsed loaded =>
      let settings := deep_update (defaults c cwd) (loaded.getD [])
      match dictGet settings "engine" with
      | some v =>
          match validateVal c v with
          | some v1 => dictSet settings "engine" v1
          | none => defaults_after_abort c cwd (loaded.getD [])
      | none => settings

/-- Key uniqueness of an association list, phrased through `dictGet` (a Python
dict can never hold a key twice). -/
def nodupKeys : List (String × Val) → Bool
  | [] => true
  | (k, _) :: rest => (dictGet rest k).isNone && nodupKeys rest

/-- Keys a settings file may mention at top level. -/
def validTopKey (k : String) : Bool :=
  k == "window" || k == "engine" || k == "voice" || k == "speed" || k == "output_folder"

/-- A valid `window` entry: a dict holding only `width` / `height`. -/
def wellFormedWindow : Val → Bool
  | Val.vDict w => nodupKeys w && w.all fun kv => kv.1 == "width" || kv.1 == "height"
  | _ => false

/-- An engine entry whose value the Python membership test can hash without
raising: anything except a dict. -/
def scalarEngine : Option Val → Bool
  | some (Val.vDict _) => false
  | _ => true

/-- A parsed settings file over an arbitrary subset of the valid keys,
with the `window` entry (if any) itself a nested subset of the defaults and
the `engine` entry (if any) a scalar, so that engine validation cannot raise
and abort the load. -/
def wellFormedFile (loaded : List (String × Val)) : Bool :=
  nodupKeys loaded &&
  (loaded.all fun kv => validTopKey kv.1) &&
  (match dictGet loaded "window" with
   | some v => wellFormedWindow v
   | none => true) &&
  scalarEngine (dictGet loaded "engine")

/-- Embeds `Settings.get_speed`, which is `float` of the stored speed (default 1.0); `none`
models the `float(...)` conversion hitting a non-numeric stored value. -/
def get_speed (s : List (String × Val)) : Option Rat :=
  match dictGet s "speed" with
  | some (Val.vNum q) => some q
  | some _ => none
  | none => some 1

/-- Embeds `Settings.set_speed`: stores `float(speed)` with no validation. -/
def set_speed (s : List (String × Val)) (speed : Rat) : List (String × Val) :=
  dictSet s "speed" (Val.vNum speed)

/-- Embeds `Settings.get_engine`: the stored engine, defaulting to cpu. -/
def get_engine (s : List (String × Val)) : Val :=
  (dictGet s "engine").getD (Val.vStr "cpu")

/-- Embeds `Settings.set_engine`: only acts when the argument is one of the three
recognized engine names; the stored value is the validated engine. -/
def set_engine (c : Caps) (s : List (String × Val)) (engine : String) :
    List (String × Val) :=
  if engine = "cpu" ∨ engine = "cuda" ∨ engine = "apple" then
    dictSet s "engine" (Val.vStr (validate_engine c engine))
  else s

/-- The filesystem state `save_settings` interacts with. `mkdirOk` is whether
`self.settings_file.parent.mkdir(exist_ok=True)` succeeds, `openOk` whether
opening the file for writing and dumping the YAML succeeds; `dirExists` and
`fileContent` are the observable on-disk state. -/
structure SaveWorld where
  mkdirOk : Bool
  openOk : Bool
  dirExists : Bool
  fileContent : Option (List (String × Val))
deriving Repr

/-- Embeds `Settings.save_settings`: create the settings directory if missing, then
serialize the whole in-memory dict; any exception on the way is caught and
turned into the return value `False`. The method never assigns
`self.settings`, so the in-memory dict comes back unchanged in all cases. -/
def save_settings (w : SaveWorld) (settings : List (String × Val)) :
    Bool × SaveWorld × List (String × Val) :=
  if w.mkdirOk then
    let w1 : SaveWorld := { w with dirExists := true }
    if w.openOk then (true, { w1 with fileContent := some settings }, settings)
    else (false, w1, settings)
  else (false, w, settings)

/-- The `MainWindow` state relevant to main-job coordination:
`synthesis_in_progress` (set in `__init__`, `on_start`, `on_core_finished`),
the enabled and shown flags of the start button, the delete-temp button, and two
observers of the worker threads: how many `CoreThread` workers are currently
alive and how many were ever spawned. -/
structure UIState where
  synthesis_in_progress : Bool
  start_button_enabled : Bool
  start_button_shown : Bool
  delete_temp_enabled : Bool
  active_jobs : Nat
  jobs_started : Nat
deriving Repr, DecidableEq

/-- Embeds `MainWindow.__init__` / `create_synthesis_panel`: no synthesis running,
start button enabled and shown, delete-temp button disabled, no workers. -/
def initUIState : UIState :=
  { synthesis_in_progress := false
    start_button_enabled := true
    start_button_shown := true
    delete_temp_enabled := false
    active_jobs := 0
    jobs_started := 0 }

/-- Embeds `MainWindow.on_start`: unconditionally marks synthesis in progress,
disables the start button, and spawns a `CoreThread` worker. There is no
check of `synthesis_in_progress` and no rejection path in the source. -/
def on_start (s : UIState) : UIState :=
  { s with synthesis_in_progress := true
           start_button_enabled := false
           active_jobs := s.active_jobs + 1
           jobs_started := s.jobs_started + 1 }

/-- Embeds `MainWindow.on_core_chapter_finished`: calls `self.start_button.Show()`
(visibility only — the button is never re-enabled). -/
def on_core_chapter_finished (s : UIState) : UIState :=
  { s with start_button_shown := true }

/-- Embeds `MainWindow.on_core_finished`: clears `synthesis_in_progress` and enables
the delete-temp button; `CORE_FINISHED` is the last event of the worker, after
which `CoreThread.run` returns and the worker terminates. -/
def on_core_finished (s : UIState) : UIState :=
  { s with synthesis_in_progress := false
           delete_temp_enabled := true
           active_jobs := s.active_jobs - 1 }

/-- Events of the observer loop: a click on the start button (wx delivers the
click to `on_start` only while the button is enabled), a chapter-finished
event, a job-finished event. -/
inductive UIEvent where
  | clickStart
  | coreChapterFinished
  | coreFinished
deriving Repr, DecidableEq

/-- One dispatch turn of the wx event loop. -/
def ui_step (s : UIState) : UIEvent → UIState
  | UIEvent.clickStart => if s.start_button_enabled then on_start s else s
  | UIEvent.coreChapterFinished => on_core_chapter_finished s
  | UIEvent.coreFinished => on_core_finished s

/-- The UI state after a sequence of events from startup. -/
def run_ui (evs : List UIEvent) : UIState :=
  evs.foldl ui_step initUIState

/-- Invariant of the main-job coordination: while the start button is enabled
no job was ever started, at most one job is ever started, and at most as many
workers are alive as were started. -/
def UIInv (s : UIState) : Prop :=
  (s.start_button_enabled = true → s.jobs_started = 0 ∧ s.active_jobs = 0) ∧
  s.jobs_started ≤ 1 ∧ s.active_jobs ≤ s.jobs_started

/-- Preview coordination state of `MainWindow`: `preview_threads` is the list
`self.preview_threads` of worker handles (as ids), `alive` the ids of preview
workers that have started and not yet terminated, `nextId` a fresh id
source. -/
structure PreviewState where
  preview_threads : List Nat
  alive : List Nat
  nextId : Nat
deriving Repr, DecidableEq

/-- Embeds `MainWindow.__init__`: `self.preview_threads = []`, nothing running. -/
def initPreviewState : PreviewState :=
  { preview_threads := [], alive := [], nextId := 0 }

/-- Embeds the `if len(self.preview_threads) > 0` block of `on_preview_chapter`:
`thread.join()` on every handle in the list blocks until that worker has
terminated (it is no longer alive afterwards), then the list is reset to
`[]`. -/
def join_previous (s : PreviewState) : PreviewState :=
  if s.preview_threads.length > 0 then
    { s with alive := s.alive.filter (fun t => !(s.preview_threads.contains t))
             preview_threads := [] }
  else s

/-- Embeds `MainWindow.on_preview_chapter`: join all previously started preview
workers, then start a fresh worker thread and append it to
`self.preview_threads`. -/
def on_preview_chapter (s : PreviewState) : PreviewState :=
  let s1 := join_previous s
  { s1 with alive := s1.alive ++ [s1.nextId]
            preview_threads := s1.preview_threads ++ [s1.nextId]
            nextId := s1.nextId + 1 }

/-- Events of the preview subsystem: a preview request dispatched on the
observer thread, or a preview worker finishing on its own. -/
inductive PreviewEvent where
  | preview
  | workerDone : Nat → PreviewEvent
deriving Repr, DecidableEq

/-- One step of the preview subsystem. -/
def preview_step (s : PreviewState) : PreviewEvent → PreviewState
  | PreviewEvent.preview => on_preview_chapter s
  | PreviewEvent.workerDone t => { s with alive := s.alive.erase t }

/-- The preview state after a sequence of events from startup. -/
def run_preview (evs : List PreviewEvent) : PreviewState :=
  evs.foldl preview_step initPreviewState

/-- Invariant of preview coordination: the alive workers are exactly the
tracked handles (or none), and at most one handle is ever tracked. -/
def PreviewInv (s : PreviewState) : Prop :=
  (s.alive = [] ∨ ∃ t, s.alive = [t] ∧ s.preview_threads = [t]) ∧
  (s.preview_threads = [] ∨ ∃ t, s.preview_threads = [t])

end Audiblez

namespace Audiblez

/-! ## Association-list and merge lemmas -/

theorem dictGet_dictSet_self (d : List (String × Val)) (k : String) (v : Val) :
    dictGet (dictSet d k v) k = some v := by
  induction d with
  | nil => simp [dictSet, dictGet]
  | cons kv rest ih =>
      obtain ⟨k0, v0⟩ := kv
      by_cases h : k0 = k <;> simp [dictSet, dictGet, h, ih]

theorem dictGet_dictSet_ne (d : List (String × Val)) (k e : String) (v : Val)
    (h : k ≠ e) : dictGet (dictSet d k v) e = dictGet d e := by
  induction d with
  | nil => simp [dictSet, dictGet, h]
  | cons kv rest ih =>
      obtain ⟨k0, v0⟩ := kv
      by_cases h0 : k0 = k
      · subst h0; simp [dictSet, dictGet, h]
      · simp [dictSet, dictGet, h0, ih]

/-- One unfolding step of `_deep_update` on a nonempty update dict. -/
theorem deep_update_cons (base rest : List (String × Val)) (k : String) (v : Val) :
    deep_update base ((k, v) :: rest) =
      deep_update (dictSet base k (mergeVal (dictGet base k) v)) rest := by
  rw [deep_update]

/-- Merging never loses a key that the base already has. -/
theorem dictGet_deep_update_isSome (upd : List (String × Val)) :
    ∀ base e, (dictGet base e).isSome = true →
      (dictGet (deep_update base upd) e).isSome = true := by
  induction upd with
  | nil => intro base e h; simpa [deep_update] using h
  | cons kv rest ih =>
      intro base e h
      obtain ⟨k, v⟩ := kv
      rw [deep_update_cons]
      apply ih
      by_cases hk : k = e
      · subst hk; simp [dictGet_dictSet_self]
      · rwa [dictGet_dictSet_ne _ _ _ _ hk]

/-- Keys outside the update dict keep their base binding. -/
theorem dictGet_deep_update_of_absent (upd : List (String × Val)) :
    ∀ base e, dictGet upd e = none →
      dictGet (deep_update base upd) e = dictGet base e := by
  induction upd with
  | nil => intro base e _; rw [deep_update]
  | cons kv rest ih =>
      intro base e h
      obtain ⟨k, v⟩ := kv
      rw [dictGet] at h
      by_cases hk : k = e
      · simp [hk] at h
      · rw [deep_update_cons, ih _ _ (by simpa [hk] using h),
          dictGet_dictSet_ne _ _ _ _ hk]

/-- A key of a duplicate-free update dict ends up bound to the merge of its
update value with its previous base binding. -/
theorem dictGet_deep_update_of_mem (upd : List (String × Val)) :
    ∀ base e v, nodupKeys upd = true → dictGet upd e = some v →
      dictGet (deep_update base upd) e = some (mergeVal (dictGet base e) v) := by
  induction upd with
  | nil => intro base e v _ h; simp [dictGet] at h
  | cons kv rest ih =>
      intro base e v hnd h
      obtain ⟨k, w⟩ := kv
      rw [nodupKeys, Bool.and_eq_true] at hnd
      by_cases hk : k = e
      · subst hk
        rw [dictGet, if_pos rfl, Option.some.injEq] at h
        subst h
        rw [deep_update_cons,
          dictGet_deep_update_of_absent _ _ _ (by simpa using hnd.1),
          dictGet_dictSet_self]
      · rw [dictGet, if_neg hk] at h
        rw [deep_update_cons, ih _ _ _ hnd.2 h, dictGet_dictSet_ne _ _ _ _ hk]

/-- Overwrite semantics of `mergeVal` when the base holds no dict at the key:
the update value wins unchanged. -/
theorem mergeVal_of_base_not_dict (b : Option Val) (v : Val)
    (h : ∀ bd, b ≠ some (Val.vDict bd)) : mergeVal b v = v := by
  cases b with
  | none => cases v <;> simp [mergeVal]
  | some b0 =>
      cases b0 with
      | vDict bd => exact absurd rfl (h bd)
      | vStr s => cases v <;> simp [mergeVal]
      | vNum q => cases v <;> simp [mergeVal]
      | vNone => cases v <;> simp [mergeVal]

/-- Every default binding outside `window` is a non-dict leaf. -/
theorem defaults_not_dict_of_ne_window (c : Caps) (cwd : String) (k : String)
    (hk : k ≠ "window") (bd : List (String × Val)) :
    dictGet (defaults c cwd) k ≠ some (Val.vDict bd) := by
  simp only [defaults, dictGet]
  split_ifs with h1 h2 h3 h4 h5 <;> simp_all

/-- A binding found by `dictGet` satisfies any property that holds of all
entries of the list. -/
theorem dictGet_all (l : List (String × Val)) (e : String) (v : Val)
    (p : String × Val → Bool) (hall : l.all p = true) (h : dictGet l e = some v) :
    p (e, v) = true := by
  induction l with
  | nil => simp [dictGet] at h
  | cons kv rest ih =>
      obtain ⟨k0, v0⟩ := kv
      rw [List.all_cons, Bool.and_eq_true] at hall
      by_cases hk : k0 = e
      · subst hk
        rw [dictGet, if_pos rfl, Option.some.injEq] at h
        subst h
        exact hall.1
      · rw [dictGet, if_neg hk] at h
        exact ih hall.2 h

/-- C5 helper: the best available engine is itself always available. -/
theorem best_available_is_available (c : Caps) :
    engineAvailable c (get_best_available_engine c) = true := by
  obtain ⟨cu, ap⟩ := c
  cases cu <;> cases ap <;> decide

/-- Claim C2. For every requested device `d` among cpu, cuda, apple and every
capability set, `_validate_engine` returns `d` unchanged exactly when the
capability dict maps `d` to true, and otherwise returns the best available
engine. (The embedding is a total function, so no input can raise.) -/
theorem validate_engine_spec (c : Caps) (d : String)
    (hd : d = "cpu" ∨ d = "cuda" ∨ d = "apple") :
    (validate_engine c d = d ↔ engineAvailable c d = true) ∧
    (engineAvailable c d = false → validate_engine c d = get_best_available_engine c) := by
  obtain ⟨cu, ap⟩ := c
  rcases hd with rfl | rfl | rfl <;> cases cu <;> cases ap <;> decide

/-- Witness for C2 at a concrete input: on a machine with CUDA but no MPS,
requesting `cuda` keeps it, and `apple` is unavailable so it falls back. -/
theorem validate_engine_spec_witness :
    (validate_engine ⟨true, false⟩ "apple" = "apple" ↔
      engineAvailable ⟨true, false⟩ "apple" = true) ∧
    (engineAvailable ⟨true, false⟩ "apple" = false →
      validate_engine ⟨true, false⟩ "apple" = get_best_available_engine ⟨true, false⟩) :=
  validate_engine_spec ⟨true, false⟩ "apple" (Or.inr (Or.inr rfl))

/-- Claim C6. When the settings file is absent, or reading / parsing it raises,
`_load_settings` returns exactly the defaults and propagates no failure; the
default engine is the best available one, so on a machine without CUDA and
without MPS the loaded engine is `cpu`. -/
theorem load_defaults_on_missing_or_failure (c : Caps) (cwd : String) :
    load_settings c cwd FileState.absent = defaults c cwd ∧
    load_settings c cwd FileState.failure = defaults c cwd ∧
    dictGet (defaults c cwd) "engine" =
      some (Val.vStr (get_best_available_engine c)) ∧
    (c.cuda = false → c.apple = false →
      dictGet (load_settings c cwd FileState.absent) "engine" =
        some (Val.vStr "cpu")) := by
  refine ⟨rfl, rfl, ?_, fun hcuda happle => ?_⟩
  · simp [defaults, dictGet, get_default_engine]
  · simp [load_settings, defaults, dictGet, get_default_engine,
      get_best_available_engine, hcuda, happle]

/-- Witness for C6: a fresh environment with neither CUDA nor MPS and no
settings file loads engine `cpu`. -/
theorem load_defaults_on_missing_or_failure_witness :
    dictGet (load_settings ⟨false, false⟩ "/home/user" FileState.absent) "engine" =
      some (Val.vStr "cpu") :=
  (load_defaults_on_missing_or_failure ⟨false, false⟩ "/home/user").2.2.2 rfl rfl

/-- The parsed-file branch of `_load_settings`, rewritten through the known
result of the merge at the `engine` key, when validation does not raise. -/
theorem load_settings_parsed_engine (c : Caps) (cwd : String)
    (loaded : List (String × Val)) (v v1 : Val)
    (hm : dictGet (deep_update (defaults c cwd) loaded) "engine" = some v)
    (hv : validateVal c v = some v1) :
    load_settings c cwd (FileState.parsed (some loaded)) =
      dictSet (deep_update (defaults c cwd) loaded) "engine" v1 := by
  rw [load_settings]
  simp only [Option.getD, hm, hv]

/-- The parsed-file branch of `_load_settings` when engine validation raises:
the whole load falls back to the shallow defaults copy. -/
theorem load_settings_parsed_abort (c : Caps) (cwd : String)
    (loaded : List (String × Val)) (v : Val)
    (hm : dictGet (deep_update (defaults c cwd) loaded) "engine" = some v)
    (hv : validateVal c v = none) :
    load_settings c cwd (FileState.parsed (some loaded)) =
      defaults_after_abort c cwd loaded := by
  rw [load_settings]
  simp only [Option.getD, hm, hv]

/-- Claim C4. If the persisted file binds `engine` to `cuda` but the machine has
no CUDA capability, the engine of the loaded configuration is the best available
engine instead. (`_load_settings` only reads the file; the substitution lives
in the returned dict and nothing is written back.) -/
theorem load_substitutes_unavailable_cuda (c : Caps) (cwd : String)
    (loaded : List (String × Val)) (hnd : nodupKeys loaded = true)
    (hcuda : c.cuda = false)
    (heng : dictGet loaded "engine" = some (Val.vStr "cuda")) :
    dictGet (load_settings c cwd (FileState.parsed (some loaded))) "engine" =
      some (Val.vStr (get_best_available_engine c)) := by
  have hm := dictGet_deep_update_of_mem loaded (defaults c cwd) "engine" _ hnd heng
  rw [mergeVal_of_base_not_dict _ _ (by simp [defaults, dictGet])] at hm
  rw [load_settings_parsed_engine c cwd loaded _ _ hm rfl, dictGet_dictSet_self]
  simp [validate_engine, engineAvailable, get_available_engines,
    boolLookup, hcuda]

/-- Witness for C4, spec Scenario B: persisted `engine: cuda` with
capabilities `{cpu: true, cuda: false, apple: true}` loads `apple`. -/
theorem load_substitutes_unavailable_cuda_witness :
    dictGet (load_settings ⟨false, true⟩ "/home/user"
        (FileState.parsed (some [("engine", Val.vStr "cuda")]))) "engine" =
      some (Val.vStr (get_best_available_engine ⟨false, true⟩)) :=
  load_substitutes_unavailable_cuda ⟨false, true⟩ "/home/user"
    [("engine", Val.vStr "cuda")] rfl rfl (by simp [dictGet])

/-- Claim C9, amended. The default speed is 1.0 and `get_speed` on a default
configuration returns it; `set_speed` stores `float(v)` for any `v` without
validation, so the stored (and later persisted) speed is exactly the value
passed, positive or not. -/
theorem speed_default_and_setter (c : Caps) (cwd : String)
    (s : List (String × Val)) (q : ℚ) :
    get_speed (defaults c cwd) = some 1 ∧ get_speed (set_speed s q) = some q := by
  constructor
  · rfl
  · simp [get_speed, set_speed, dictGet_dictSet_self]

/-- Counterexample to C9 as stated: passing -2 to the speed setter stores -2,
which is not positive. -/
theorem speed_positive_counterexample :
    get_speed (set_speed (defaults ⟨false, false⟩ "/home/user") (-2)) = some (-2) ∧
    ¬ (0 < (-2 : ℚ)) := by
  constructor
  · rfl
  · norm_num

/-- Claim C10. `set_engine` with an unrecognized string is a silent no-op (the
whole settings dict is returned unchanged), and after `set_engine` with one of
the three recognized names the stored engine is always available. -/
theorem set_engine_frame_and_validity (c : Caps) (s : List (String × Val))
    (e : String) :
    (¬(e = "cpu" ∨ e = "cuda" ∨ e = "apple") → set_engine c s e = s) ∧
    ((e = "cpu" ∨ e = "cuda" ∨ e = "apple") →
      dictGet (set_engine c s e) "engine" =
        some (Val.vStr (validate_engine c e)) ∧
      engineAvailable c (validate_engine c e) = true) := by
  constructor
  · intro h
    rw [set_engine, if_neg h]
  · intro h
    rw [set_engine, if_pos h]
    refine ⟨dictGet_dictSet_self _ _ _, ?_⟩
    by_cases ha : engineAvailable c e = true
    · rwa [validate_engine, if_pos ha]
    · rw [validate_engine, if_neg ha]
      exact best_available_is_available c

/-- Witness for C10: an unknown engine string leaves the dict untouched, and
setting `cuda` on a CUDA-less CPU-only machine stores an available engine. -/
theorem set_engine_frame_and_validity_witness :
    set_engine ⟨false, false⟩ [("engine", Val.vStr "cpu")] "gpu2" =
      [("engine", Val.vStr "cpu")] ∧
    engineAvailable ⟨false, false⟩ (validate_engine ⟨false, false⟩ "cuda") = true :=
  ⟨(set_engine_frame_and_validity ⟨false, false⟩ [("engine", Val.vStr "cpu")] "gpu2").1
      (by simp),
   ((set_engine_frame_and_validity ⟨false, false⟩ [("engine", Val.vStr "cpu")] "cuda").2
      (Or.inr (Or.inl rfl))).2⟩

/-- Claim C5. `get_best_available_engine` is a (deterministic) function of the
capability set and respects the fixed priority apple > cuda > cpu: it returns
`apple` exactly when MPS is available, `cuda` exactly when CUDA is available
but MPS is not, and `cpu` exactly when neither accelerator is available. -/
theorem best_available_priority (c : Caps) :
    (get_best_available_engine c = "apple" ↔ c.apple = true) ∧
    (get_best_available_engine c = "cuda" ↔ (c.apple = false ∧ c.cuda = true)) ∧
    (get_best_available_engine c = "cpu" ↔ (c.apple = false ∧ c.cuda = false)) := by
  obtain ⟨cu, ap⟩ := c
  cases cu <;> cases ap <;> refine ⟨⟨?_, ?_⟩, ⟨?_, ?_⟩, ⟨?_, ?_⟩⟩ <;>
    simp [get_best_available_engine]

/-- Claim C1, amended. For every well-formed settings file (an arbitrary
subset of the valid keys, with `window` a nested subset and a scalar `engine`
value, so validation cannot raise and abort the load), `_load_settings`
returns a dict in which (i) every default key is present, (ii) the `window`
dict still holds `width` and `height`, (iii) every file-provided leaf other
than `engine` and `window` overwrites the corresponding default leaf, (iv) a
file-provided `engine` is stored only after passing through engine
validation, and (v) a file-provided `window` dict is merged recursively over
the default window, never replacing it wholesale. -/
theorem load_merge_completeness_amended (c : Caps) (cwd : String)
    (loaded : List (String × Val)) (hwf : wellFormedFile loaded = true) :
    (∀ k, k ∈ ["window", "engine", "voice", "speed", "output_folder"] →
      (dictGet (load_settings c cwd (FileState.parsed (some loaded))) k).isSome
        = true) ∧
    (∃ w, dictGet (load_settings c cwd (FileState.parsed (some loaded))) "window"
        = some (Val.vDict w) ∧
      (dictGet w "width").isSome = true ∧ (dictGet w "height").isSome = true) ∧
    (∀ k v, k ≠ "engine" → k ≠ "window" → dictGet loaded k = some v →
      dictGet (load_settings c cwd (FileState.parsed (some loaded))) k = some v) ∧
    (∀ v, dictGet loaded "engine" = some v →
      dictGet (load_settings c cwd (FileState.parsed (some loaded))) "engine"
        = validateVal c v) ∧
    (∀ w, dictGet loaded "window" = some (Val.vDict w) →
      dictGet (load_settings c cwd (FileState.parsed (some loaded))) "window"
        = some (Val.vDict (deep_update default_window w)) ∧
      ∀ k v, dictGet w k = some v →
        dictGet (deep_update default_window w) k = some v) := by
  rw [wellFormedFile, Bool.and_eq_true, Bool.and_eq_true, Bool.and_eq_true]
    at hwf
  obtain ⟨⟨⟨hnd, _hall⟩, hwin⟩, heng⟩ := hwf
  have hmerge : ∃ ve v1,
      dictGet (deep_update (defaults c cwd) loaded) "engine" = some ve ∧
      validateVal c ve = some v1 := by
    cases h0 : dictGet loaded "engine" with
    | none =>
        refine ⟨Val.vStr (get_default_engine c),
          Val.vStr (validate_engine c (get_default_engine c)), ?_, rfl⟩
        rw [dictGet_deep_update_of_absent loaded _ _ h0]
        rfl
    | some v =>
        have hm := dictGet_deep_update_of_mem loaded (defaults c cwd) "engine" v
          hnd h0
        rw [mergeVal_of_base_not_dict _ _
          (defaults_not_dict_of_ne_window c cwd "engine" (by decide))] at hm
        rw [h0] at heng
        cases v with
        | vStr s => exact ⟨_, _, hm, rfl⟩
        | vNum q => exact ⟨_, _, hm, rfl⟩
        | vNone => exact ⟨_, _, hm, rfl⟩
        | vDict d => simp [scalarEngine] at heng
  obtain ⟨ve, v1, hve, hval⟩ := hmerge
  have hr : load_settings c cwd (FileState.parsed (some loaded)) =
      dictSet (deep_update (defaults c cwd) loaded) "engine" v1 :=
    load_settings_parsed_engine c cwd loaded ve v1 hve hval
  have hsome : ∀ k, (dictGet (defaults c cwd) k).isSome = true →
      (dictGet (load_settings c cwd (FileState.parsed (some loaded))) k).isSome
        = true := by
    intro k hk
    rw [hr]
    by_cases he : "engine" = k
    · subst he
      rw [dictGet_dictSet_self]
      rfl
    · rw [dictGet_dictSet_ne _ _ _ _ he]
      exact dictGet_deep_update_isSome loaded _ _ hk
  have hwnd : ∀ w, dictGet loaded "window" = some (Val.vDict w) →
      dictGet (load_settings c cwd (FileState.parsed (some loaded))) "window"
        = some (Val.vDict (deep_update default_window w)) := by
    intro w h0
    have hm := dictGet_deep_update_of_mem loaded (defaults c cwd) "window" _ hnd h0
    rw [hr, dictGet_dictSet_ne _ _ _ _ (by decide), hm]
    have hd : dictGet (defaults c cwd) "window" = some (Val.vDict default_window) :=
      rfl
    rw [hd]
    rw [mergeVal]
  refine ⟨?_, ?_, ?_, ?_, ?_⟩
  · intro k hk
    apply hsome
    fin_cases hk <;> rfl
  · cases h0 : dictGet loaded "window" with
    | none =>
        refine ⟨default_window, ?_, rfl, rfl⟩
        rw [hr, dictGet_dictSet_ne _ _ _ _ (by decide),
          dictGet_deep_update_of_absent loaded _ _ h0]
        rfl
    | some v0 =>
        rw [h0] at hwin
        cases v0 with
        | vDict w =>
            exact ⟨deep_update default_window w, hwnd w h0,
              dictGet_deep_update_isSome w _ _ rfl,
              dictGet_deep_update_isSome w _ _ rfl⟩
        | vStr s => simp [wellFormedWindow] at hwin
        | vNum q => simp [wellFormedWindow] at hwin
        | vNone => simp [wellFormedWindow] at hwin
  · intro k v hke hkw h
    have hm := dictGet_deep_update_of_mem loaded (defaults c cwd) k v hnd h
    rw [mergeVal_of_base_not_dict _ _ (defaults_not_dict_of_ne_window c cwd k hkw)]
      at hm
    rw [hr, dictGet_dictSet_ne _ _ _ _ (fun hh => hke hh.symm), hm]
  · intro v h
    have hm := dictGet_deep_update_of_mem loaded (defaults c cwd) "engine" v hnd h
    rw [mergeVal_of_base_not_dict _ _
      (defaults_not_dict_of_ne_window c cwd "engine" (by decide))] at hm
    have hv : ve = v := by
      have h1 := hve.symm.trans hm
      injection h1
    subst hv
    rw [hr, dictGet_dictSet_self, hval]
  · intro w h0
    refine ⟨hwnd w h0, ?_⟩
    simp only [h0] at hwin
    rw [show wellFormedWindow (Val.vDict w) =
        (nodupKeys w && w.all fun kv => kv.1 == "width" || kv.1 == "height")
      from rfl, Bool.and_eq_true] at hwin
    intro k v hkv
    have hm2 := dictGet_deep_update_of_mem w default_window k v hwin.1 hkv
    have hk : k = "width" ∨ k = "height" := by
      have := dictGet_all w k v _ hwin.2 hkv
      simpa using this
    rw [mergeVal_of_base_not_dict] at hm2
    · exact hm2
    · rcases hk with rfl | rfl <;> simp [default_window, dictGet]

/-- Witness for C1: a file setting only `speed` and `window.height` keeps all
default keys, overrides the `speed` leaf, and merges the window dict. -/
theorem load_merge_completeness_amended_witness :
    wellFormedFile
        [("speed", Val.vNum 3), ("window", Val.vDict [("height", Val.vNum 700)])]
      = true ∧
    dictGet (load_settings ⟨false, false⟩ "/home/user" (FileState.parsed (some
        [("speed", Val.vNum 3), ("window", Val.vDict [("height", Val.vNum 700)])])))
      "speed" = some (Val.vNum 3) :=
  ⟨rfl,
    (load_merge_completeness_amended ⟨false, false⟩ "/home/user"
      [("speed", Val.vNum 3), ("window", Val.vDict [("height", Val.vNum 700)])]
      rfl).2.2.1 "speed" (Val.vNum 3) (by decide) (by decide) rfl⟩

/-- Counterexample to C1 as stated: the file leaf `engine: cuda` does not
survive into the loaded configuration on a machine without CUDA — the engine
is validated after the merge, so the returned leaf is `cpu`, not the
file-provided `cuda`. -/
theorem load_merge_override_counterexample :
    wellFormedFile [("engine", Val.vStr "cuda")] = true ∧
    dictGet (load_settings ⟨false, false⟩ "/home/user"
        (FileState.parsed (some [("engine", Val.vStr "cuda")]))) "engine"
      = some (Val.vStr "cpu") ∧
    some (Val.vStr "cpu") ≠ some (Val.vStr "cuda") := by
  refine ⟨rfl, ?_, by simp⟩
  have hm := dictGet_deep_update_of_mem [("engine", Val.vStr "cuda")]
    (defaults ⟨false, false⟩ "/home/user") "engine" (Val.vStr "cuda") rfl rfl
  rw [mergeVal_of_base_not_dict _ _ (by simp [defaults, dictGet])] at hm
  rw [load_settings_parsed_engine _ _ _ _ (Val.vStr "cpu") hm rfl,
    dictGet_dictSet_self]

/-- Out-of-scope behaviour of `_load_settings` that bounds C1: a dict-valued
`engine` is unhashable, so the membership test inside `_validate_engine`
raises TypeError within the try of `_load_settings`, and the load falls back
to the defaults — the merged `speed: 3` does not survive. -/
theorem load_aborts_on_dict_engine :
    dictGet (load_settings ⟨false, false⟩ "/home/user" (FileState.parsed (some
        [("speed", Val.vNum 3), ("engine", Val.vDict [("a", Val.vNum 1)])])))
      "speed" = some (Val.vNum 1) := by
  have hm := dictGet_deep_update_of_mem
    [("speed", Val.vNum 3), ("engine", Val.vDict [("a", Val.vNum 1)])]
    (defaults ⟨false, false⟩ "/home/user") "engine"
    (Val.vDict [("a", Val.vNum 1)]) rfl rfl
  rw [mergeVal_of_base_not_dict _ _ (by simp [defaults, dictGet])] at hm
  rw [load_settings_parsed_abort _ _ _ _ hm rfl]
  rfl

/-- Second out-of-scope behaviour bounding C1: even on the TypeError fallback
path, a dict-valued `window` entry of the file survives, because the deep
merge already updated the nested `window` dict shared between the shallow
defaults copy and `self.defaults` before validation raised. -/
theorem load_abort_keeps_merged_window :
    dictGet (load_settings ⟨false, false⟩ "/home/user" (FileState.parsed (some
        [("window", Val.vDict [("height", Val.vNum 700)]),
         ("engine", Val.vDict [("a", Val.vNum 1)])])))
      "window" = some (Val.vDict [("width", Val.vNum 800),
        ("height", Val.vNum 700)]) := by
  have hm := dictGet_deep_update_of_mem
    [("window", Val.vDict [("height", Val.vNum 700)]),
     ("engine", Val.vDict [("a", Val.vNum 1)])]
    (defaults ⟨false, false⟩ "/home/user") "engine"
    (Val.vDict [("a", Val.vNum 1)]) rfl rfl
  rw [mergeVal_of_base_not_dict _ _ (by simp [defaults, dictGet])] at hm
  have hW : deep_update default_window [("height", Val.vNum 700)] =
      [("width", Val.vNum 800), ("height", Val.vNum 700)] := by
    rw [deep_update_cons,
      mergeVal_of_base_not_dict _ _ (by simp [default_window, dictGet]),
      deep_update]
    rfl
  have habort : defaults_after_abort ⟨false, false⟩ "/home/user"
      [("window", Val.vDict [("height", Val.vNum 700)]),
       ("engine", Val.vDict [("a", Val.vNum 1)])] =
      dictSet (defaults ⟨false, false⟩ "/home/user") "window"
        (Val.vDict (deep_update default_window [("height", Val.vNum 700)])) :=
    rfl
  rw [load_settings_parsed_abort _ _ _ _ hm rfl, habort, hW,
    dictGet_dictSet_self]

/-- Claim C7. `save_settings` serializes the full in-memory dict, creating the
missing settings directory first; every I/O failure is caught and reported as
the return value `False` (the embedding is a total function, so nothing can
escape as an exception), and the in-memory settings dict comes back unchanged
from failed and successful saves alike. -/
theorem save_settings_spec (w : SaveWorld) (s : List (String × Val)) :
    (save_settings w s).2.2 = s ∧
    ((save_settings w s).1 = true ↔ (w.mkdirOk = true ∧ w.openOk = true)) ∧
    ((save_settings w s).1 = true →
      (save_settings w s).2.1.fileContent = some s ∧
      (save_settings w s).2.1.dirExists = true) := by
  obtain ⟨mk, op, de, fc⟩ := w
  cases mk <;> cases op <;> simp [save_settings]

/-- Witness for C7, spec Scenario D: saving to an unwritable location returns
`False` and leaves the in-memory dict unchanged; a writable location stores
the full dict. -/
theorem save_settings_spec_witness :
    (save_settings ⟨true, false, false, none⟩ (defaults ⟨false, false⟩ "/w")).2.2
      = defaults ⟨false, false⟩ "/w" ∧
    (save_settings ⟨true, false, false, none⟩ (defaults ⟨false, false⟩ "/w")).1
      = false ∧
    (save_settings ⟨true, true, false, none⟩
        (defaults ⟨false, false⟩ "/w")).2.1.fileContent
      = some (defaults ⟨false, false⟩ "/w") :=
  ⟨(save_settings_spec ⟨true, false, false, none⟩ _).1,
    by
      have h := (save_settings_spec ⟨true, false, false, none⟩
        (defaults ⟨false, false⟩ "/w")).2.1
      simp at h
      simpa using h,
    ((save_settings_spec ⟨true, true, false, none⟩ _).2.2 rfl).1⟩

/-! ## Main-job coordination (C3) -/

/-- Folding the step function preserves the job invariant. -/
theorem ui_inv_step (s : UIState) (hs : UIInv s) (ev : UIEvent) :
    UIInv (ui_step s ev) := by
  obtain ⟨h1, h2, h3⟩ := hs
  cases ev with
  | clickStart =>
      by_cases hen : s.start_button_enabled = true
      · obtain ⟨hz1, hz2⟩ := h1 hen
        simp only [ui_step, if_pos hen, UIInv, on_start]
        refine ⟨fun h => by simp at h, ?_, ?_⟩ <;> omega
      · simp only [ui_step, if_neg hen]
        exact ⟨h1, h2, h3⟩
  | coreChapterFinished =>
      exact ⟨h1, h2, h3⟩
  | coreFinished =>
      refine ⟨fun hen => ?_, h2, ?_⟩
      · obtain ⟨hz1, hz2⟩ := h1 hen
        simp only [ui_step, on_core_finished]
        omega
      · simp only [ui_step, on_core_finished]
        omega

/-- Claim C3, amended. `on_start` itself performs no concurrency check; mutual
exclusion comes solely from the start button being disabled by `on_start` and
never re-enabled. Along every sequence of observer events of one document
session, at most one synthesis worker is ever alive, at most one job is ever
started (in particular a click after `JobFinished` starts nothing new), and
while the button is still enabled no job has run. -/
theorem job_mutual_exclusion_amended (evs : List UIEvent) :
    (run_ui evs).active_jobs ≤ 1 ∧
    (run_ui evs).jobs_started ≤ 1 ∧
    ((run_ui evs).start_button_enabled = true →
      (run_ui evs).active_jobs = 0 ∧ (run_ui evs).jobs_started = 0) := by
  have hfold : ∀ (l : List UIEvent) (s : UIState), UIInv s →
      UIInv (l.foldl ui_step s) := by
    intro l
    induction l with
    | nil => exact fun s hs => hs
    | cons e rest ih => exact fun s hs => ih _ (ui_inv_step s hs e)
  have h : UIInv (run_ui evs) :=
    hfold evs initUIState ⟨fun _ => ⟨rfl, rfl⟩, by simp [initUIState], by simp [initUIState]⟩
  obtain ⟨h1, h2, h3⟩ := h
  exact ⟨le_trans h3 h2, h2, fun he => ⟨(h1 he).2, (h1 he).1⟩⟩

/-- Counterexample to C3 as stated: the `on_start` handler invoked while a job
is active spawns a second worker with no `JobAlreadyRunning` rejection (two
workers alive at once), and a start-button click after the finish of the prior
job starts nothing, because the button was never re-enabled. -/
theorem job_start_counterexample :
    (on_start (on_start initUIState)).active_jobs = 2 ∧
    (run_ui [UIEvent.clickStart, UIEvent.coreFinished, UIEvent.clickStart]).jobs_started
      = 1 := by
  constructor <;> rfl

/-! ## Preview serialization (C8) -/

/-- `join_previous` always leaves the thread list empty. -/
theorem join_previous_threads (s : PreviewState) :
    (join_previous s).preview_threads = [] := by
  rw [join_previous]
  split
  · rfl
  · next h =>
      have hlen : s.preview_threads.length = 0 := by omega
      exact List.length_eq_zero.mp hlen

/-- `join_previous` does not touch the id source. -/
theorem join_previous_nextId (s : PreviewState) :
    (join_previous s).nextId = s.nextId := by
  rw [join_previous]
  split <;> rfl

/-- Under the invariant, after the join loop no preview worker is alive: every
previously started worker has terminated before a new one starts. -/
theorem join_previous_alive (s : PreviewState) (hs : PreviewInv s) :
    (join_previous s).alive = [] := by
  obtain ⟨ha, hp⟩ := hs
  rcases hp with hp | ⟨t0, hp⟩
  · rcases ha with ha | ⟨t, ha, ht⟩
    · rw [join_previous, if_neg (by simp [hp]), ha]
    · rw [hp] at ht
      exact absurd ht.symm (List.cons_ne_nil t [])
  · rw [join_previous, if_pos (by simp [hp])]
    rcases ha with ha | ⟨t, ha, ht⟩
    · simp [ha]
    · obtain rfl : t0 = t := by
        have h0 := hp.symm.trans ht
        injection h0
      simp [ha, hp]

/-- After a preview request, exactly the freshly spawned worker is alive. -/
theorem on_preview_alive (s : PreviewState) (hs : PreviewInv s) :
    (on_preview_chapter s).alive = [s.nextId] := by
  have h1 : (on_preview_chapter s).alive =
      (join_previous s).alive ++ [(join_previous s).nextId] := rfl
  rw [h1, join_previous_alive s hs, join_previous_nextId]
  rfl

/-- The preview step function preserves the preview invariant. -/
theorem preview_inv_step (s : PreviewState) (hs : PreviewInv s)
    (ev : PreviewEvent) : PreviewInv (preview_step s ev) := by
  obtain ⟨ha, hp⟩ := hs
  cases ev with
  | preview =>
      have h1 : (on_preview_chapter s).alive = [s.nextId] :=
        on_preview_alive s ⟨ha, hp⟩
      have h2 : (on_preview_chapter s).preview_threads = [s.nextId] := by
        have h0 : (on_preview_chapter s).preview_threads =
            (join_previous s).preview_threads ++ [(join_previous s).nextId] := rfl
        rw [h0, join_previous_threads, join_previous_nextId]
        rfl
      exact ⟨Or.inr ⟨s.nextId, h1, h2⟩, Or.inr ⟨s.nextId, h2⟩⟩
  | workerDone t =>
      refine ⟨?_, hp⟩
      rcases ha with ha | ⟨t1, ha, ht⟩
      · left
        simp [preview_step, ha]
      · by_cases he : t1 = t
        · left
          simp [preview_step, ha, he]
        · right
          exact ⟨t1, by simp [preview_step, ha, he], ht⟩

/-- Claim C8. Preview runs never overlap: after any sequence of preview requests
and worker terminations, at most one preview worker is alive; the join loop of
`on_preview_chapter` runs before the new worker starts and leaves no previous
worker alive, so immediately after a request the freshly spawned worker is the
only live one. -/
theorem preview_serialization (evs : List PreviewEvent) :
    (run_preview evs).alive.length ≤ 1 ∧
    (join_previous (run_preview evs)).alive = [] ∧
    (on_preview_chapter (run_preview evs)).alive = [(run_preview evs).nextId] := by
  have hfold : ∀ (l : List PreviewEvent) (s : PreviewState), PreviewInv s →
      PreviewInv (l.foldl preview_step s) := by
    intro l
    induction l with
    | nil => exact fun s hs => hs
    | cons e rest ih => exact fun s hs => ih _ (preview_inv_step s hs e)
  have hinv : PreviewInv (run_preview evs) :=
    hfold evs initPreviewState ⟨Or.inl rfl, Or.inl rfl⟩
  refine ⟨?_, join_previous_alive _ hinv, on_preview_alive _ hinv⟩
  obtain ⟨ha, _⟩ := hinv
  rcases ha with h | ⟨t, h, _⟩ <;> simp [h]

end Audiblez
